import Mathlib

/-
Verification of the TranslationEditor component
(src/src/features/TranslationEditor/TranslationEditor.tsx).

The development has two layers.

The first layer models the raw JavaScript semantics of the file-upload
handler `handleFileUpload`: the uploaded content is the result of
`JSON.parse` (`none` when the text is not parseable JSON), `Object.entries`
is modelled on every JSON value including its throwing behaviour on `null`,
and property access `value.defaultMessage` yields `none` (JS `undefined`)
on values that lack the property and throws on `null`.  State-setter calls
that were issued before an exception is thrown stay applied, exactly as the
queued React updates do.

The second layer models the editable table: entries with a stable `id`, an
editable `key` and an editable `defaultMessage`, the original snapshot as
an association list from keys to default messages (the shape it has after
any successful load of a well-formed file, where property names are unique
because they come from a parsed JSON object), and the handlers
`handlePropertyChange`, `handleTranslationChange`, `handleClearTranslation`,
the clear-all column handler, `addNewTranslation`, `downloadJSON` and
`handleDownloadClick` as pure functions.  JavaScript object construction by
`acc[entry.key] = {defaultMessage: entry.defaultMessage}` inside `reduce`
is modelled by `jsInsert`: assignment to the key `__proto__` hits the
inherited prototype setter and creates no own property, and otherwise an
existing binding is updated in place or a new one appended.  The own keys
of a plain object are enumerated — by `Object.entries` and
`JSON.stringify` alike — with array-index keys first in ascending numeric
order, then the remaining string keys in insertion order; `jsOwnOrder`
models this, and `canonicalIndex` recognises the array-index strings
(canonical base-10 numerals below 2^32 - 1).  `jsTrim` strips the
ECMAScript WhiteSpace and LineTerminator code points, which include
`\v`, `\f`, NBSP, the Unicode space separators and the BOM.
-/

namespace TranslationEditor

/-- JSON values as produced by `JSON.parse`. -/
inductive Json where
  | null : Json
  | bool : Bool → Json
  | num : Int → Json
  | str : String → Json
  | arr : List Json → Json
  | obj : List (String × Json) → Json

/-- JS object property lookup.  Objects produced by `JSON.parse` bind each
name once (a duplicated name in the source text keeps the last value), so
lookup returns the last binding of the name. -/
def jsLookup (fs : List (String × Json)) (k : String) : Option Json :=
  (fs.reverse.find? (fun p => p.1 == k)).map (·.2)

/-- `Object.entries` on a parsed JSON value: `none` models the `TypeError`
thrown on `null`; primitives give `[]` except strings, which enumerate
their characters by index; arrays enumerate elements by index. -/
def objectEntries : Json → Option (List (String × Json))
  | Json.null => none
  | Json.bool _ => some []
  | Json.num _ => some []
  | Json.str s => some (s.data.enum.map (fun p => (toString p.1, Json.str (Char.toString p.2))))
  | Json.arr xs => some (xs.enum.map (fun p => (toString p.1, p.2)))
  | Json.obj fs => some fs

/-- The access `value.defaultMessage`: throws (`none`) on `null`, returns
the property on objects (JS `undefined` modelled as `some none` when the
property is absent), and `undefined` on every other value. -/
def getDefaultMessage : Json → Option (Option Json)
  | Json.null => none
  | Json.obj gs => some (jsLookup gs "defaultMessage")
  | _ => some none

/-- One editable row exactly as built by the upload handler; the value can
be any JSON value or `undefined` (`none`) when the file had an unexpected
shape. -/
structure JsEntry where
  id : String
  key : String
  defaultMessage : Option Json

/-- The `Object.entries(jsonData).map(...)` step of the upload handler;
`none` models the map callback throwing on some element. -/
def toEntries : List (String × Json) → Option (List JsEntry)
  | [] => some []
  | (k, v) :: rest => do
    let dm ← getDefaultMessage v
    let tail ← toEntries rest
    pure (⟨k, k, dm⟩ :: tail)

/-- The component state that the upload handler touches. -/
structure JsState where
  translationEntries : List JsEntry
  originalData : Json
  fileName : String

/-- `handleFileUpload` after a file with name `uploadedName` was chosen and
read; `content` is the result of `JSON.parse` on its text (`none` when the
text is not valid JSON).  The returned flag records whether the error alert
was raised.  `setFileName` runs before parsing; `setOriginalData` runs
before the entries map, and a throw inside the map leaves the already
issued setter applied. -/
def handleFileUpload (s : JsState) (uploadedName : String) (content : Option Json) :
    JsState × Bool :=
  let s1 : JsState := { s with fileName := uploadedName }
  match content with
  | none => (s1, true)
  | some jsonData =>
    let s2 : JsState := { s1 with originalData := jsonData }
    match objectEntries jsonData with
    | none => (s2, true)
    | some kvs =>
      match toEntries kvs with
      | none => (s2, true)
      | some entries => ({ s2 with translationEntries := entries }, false)

/-- A property is well-shaped when its value is an object whose
`defaultMessage` is a string. -/
def validField (p : String × Json) : Bool :=
  match p.2 with
  | Json.obj gs =>
    match jsLookup gs "defaultMessage" with
    | some (Json.str _) => true
    | _ => false
  | _ => false

/-- The expected input shape from the spec:
a top-level object, each value an object with a string `defaultMessage`. -/
def isValidShape : Json → Bool
  | Json.obj fs => fs.all validField
  | _ => false

/-- Uploaded content counts as valid when it parses and has the expected
shape. -/
def validContent : Option Json → Bool
  | none => false
  | some j => isValidShape j

/-- The `defaultMessage` property of a well-shaped value. -/
def jsonDM : Json → Option Json
  | Json.obj gs => jsLookup gs "defaultMessage"
  | _ => none

/-- One editable row of the second layer: stable `id`, editable `key` and
editable value, all strings as they are after a well-formed load and any
sequence of edits. -/
structure TranslationEntry where
  id : String
  key : String
  defaultMessage : String
deriving DecidableEq, Repr

/-- The original snapshot after a well-formed load: property name to
`defaultMessage`, in enumeration order. -/
abbrev TranslationData := List (String × String)

/-- The entry list produced by loading the well-formed object `o`. -/
def importEntries (o : TranslationData) : List TranslationEntry :=
  o.map (fun p => ⟨p.1, p.1, p.2⟩)

/-- `handlePropertyChange`: replace the key of the row with the given id. -/
def handlePropertyChange (entries : List TranslationEntry) (id newKey : String) :
    List TranslationEntry :=
  entries.map (fun e => if e.id == id then { e with key := newKey } else e)

/-- `handleTranslationChange`: replace the value of the row with the given
id. -/
def handleTranslationChange (entries : List TranslationEntry) (id newTranslation : String) :
    List TranslationEntry :=
  entries.map (fun e => if e.id == id then { e with defaultMessage := newTranslation } else e)

/-- `handleClearTranslation`: clear the value of the row with the given
id. -/
def handleClearTranslation (entries : List TranslationEntry) (id : String) :
    List TranslationEntry :=
  entries.map (fun e => if e.id == id then { e with defaultMessage := "" } else e)

/-- The clear-all column handler: `entry.defaultMessage ? {...entry,
defaultMessage: ''} : entry` for every row (a non-empty string is truthy). -/
def clearAllValues (entries : List TranslationEntry) : List TranslationEntry :=
  entries.map (fun e => if e.defaultMessage != "" then { e with defaultMessage := "" } else e)

/-- `Object.prototype.hasOwnProperty.call(originalData, id)`. -/
def hasOwnProperty (o : TranslationData) (id : String) : Bool :=
  o.any (fun p => p.1 == id)

/-- `originalData[id]?.defaultMessage` on a snapshot of the well-formed
shape (unique property names, so first and last binding coincide). -/
def lookupData (o : TranslationData) (id : String) : Option String :=
  (o.find? (fun p => p.1 == id)).map (·.2)

/-- `isModified`: the snapshot value differs from the row value (with JS
`!==` being true when the property is absent), or the id is not a snapshot
property. -/
def isModified (o : TranslationData) (e : TranslationEntry) : Bool :=
  !(lookupData o e.id == some e.defaultMessage) || !hasOwnProperty o e.id

/-- `isNewTranslation`: the id is not a property of the snapshot. -/
def isNewTranslation (o : TranslationData) (e : TranslationEntry) : Bool :=
  !hasOwnProperty o e.id

/-- The ECMAScript WhiteSpace and LineTerminator code points stripped by
`String.prototype.trim`: TAB, LF, VT, FF, CR, SP, NBSP, U+1680, the
U+2000..U+200A space separators, LS, PS, NNBSP, MMSP, U+3000 and the
BOM. -/
def jsWhitespace (c : Char) : Bool :=
  c.toNat = 9 || c.toNat = 10 || c.toNat = 11 || c.toNat = 12 || c.toNat = 13 ||
  c.toNat = 32 || c.toNat = 160 || c.toNat = 5760 ||
  (8192 ≤ c.toNat && c.toNat ≤ 8202) ||
  c.toNat = 8232 || c.toNat = 8233 || c.toNat = 8239 || c.toNat = 8287 ||
  c.toNat = 12288 || c.toNat = 65279

/-- JS `String.prototype.trim` on the character list: drop ECMAScript
whitespace from both ends. -/
def trimChars (l : List Char) : List Char :=
  ((l.dropWhile jsWhitespace).reverse.dropWhile jsWhitespace).reverse

/-- JS `s.trim()`. -/
def jsTrim (s : String) : String :=
  String.mk (trimChars s.data)

/-- The export filter of `downloadJSON`: keep every row that is not new,
and every new row whose trimmed key and trimmed value are non-empty. -/
def validEntries (o : TranslationData) (entries : List TranslationEntry) :
    List TranslationEntry :=
  entries.filter (fun e =>
    !isNewTranslation o e || (jsTrim e.key != "" && jsTrim e.defaultMessage != ""))

/-- JS property assignment `acc[k] = v` on a plain object: assignment to
`__proto__` invokes the inherited prototype setter and creates no own
property; otherwise an existing binding is updated in place, or a new one
appended. -/
def jsInsert (acc : TranslationData) (k v : String) : TranslationData :=
  if k == "__proto__" then
    acc
  else if acc.any (fun p => p.1 == k) then
    acc.map (fun p => if p.1 == k then (p.1, v) else p)
  else
    acc ++ [(k, v)]

/-- The array-index value of a property key, when it is one: a canonical
base-10 numeral (no leading zero except "0" itself) whose value is below
2^32 - 1. -/
def canonicalIndex (k : String) : Option Nat :=
  match k.data with
  | [] => none
  | c :: cs =>
    if (c :: cs).all Char.isDigit = true ∧ (c = '0' → cs = []) then
      let n := (c :: cs).foldl (fun a d => a * 10 + (d.toNat - 48)) 0
      if n < 4294967295 then some n else none
    else none

/-- Insert into a list of properties sorted by ascending array index. -/
def insertIdx (p : String × String) : List (String × String) → List (String × String)
  | [] => [p]
  | q :: qs =>
    if (canonicalIndex p.1).getD 0 ≤ (canonicalIndex q.1).getD 0 then p :: q :: qs
    else q :: insertIdx p qs

/-- Sort a list of properties by ascending array index. -/
def sortIdx : List (String × String) → List (String × String)
  | [] => []
  | p :: ps => insertIdx p (sortIdx ps)

/-- The own-key enumeration order of a plain JS object, used by
`Object.entries` and `JSON.stringify`: array-index keys first in ascending
numeric order, then the remaining keys in insertion order. -/
def jsOwnOrder (fs : List (String × String)) : List (String × String) :=
  sortIdx (fs.filter (fun p => (canonicalIndex p.1).isSome))
    ++ fs.filter (fun p => (canonicalIndex p.1).isNone)

/-- The `reduce` of `downloadJSON`: build the output object by assigning
`key = {defaultMessage: value}` for each kept row in list order. -/
def translationsObject (o : TranslationData) (entries : List TranslationEntry) :
    TranslationData :=
  (validEntries o entries).foldl (fun acc e => jsInsert acc e.key e.defaultMessage) []

/-- `addNewTranslation`: append a row with empty key and value whose id is
`Date.now().toString()`, passed here as `nowToken`. -/
def addNewTranslation (entries : List TranslationEntry) (nowToken : String) :
    List TranslationEntry :=
  entries ++ [⟨nowToken, "", ""⟩]

/-- The characters of the extension used by the filename handling. -/
def jsonExt : List Char := ".json".data

/-- `name.replace(/\.json$/, '')`: remove one trailing `.json`. -/
def stripTrailingJson (n : String) : String :=
  if jsonExt.isSuffixOf n.data then String.mk (n.data.take (n.data.length - 5)) else n

/-- The downloaded file name: the chosen name with one trailing `.json`
removed, then `.json` appended. -/
def finalFileName (n : String) : String :=
  stripTrailingJson n ++ ".json"

/-- Remove the leftmost occurrence of `pat`, leaving the rest untouched. -/
def removeFirstAux (pat : List Char) : List Char → List Char
  | [] => []
  | c :: cs =>
    if pat.isPrefixOf (c :: cs) then (c :: cs).drop pat.length
    else c :: removeFirstAux pat cs

/-- `s.replace(pat, '')` with a string pattern: JS replaces only the first
occurrence. -/
def jsReplaceFirst (s pat : String) : String :=
  String.mk (removeFirstAux pat.data s.data)

/-- JS `a || b` on strings: the empty string is falsy. -/
def jsOrString (a b : String) : String :=
  if a == "" then b else a

/-- Whether `pat` occurs as a contiguous run of `l`. -/
def containsSub (pat : List Char) : List Char → Bool
  | [] => pat.isPrefixOf []
  | c :: cs => pat.isPrefixOf (c :: cs) || containsSub pat cs

/-- The model state touched by download and dialog handling. -/
structure EditorState where
  translationEntries : List TranslationEntry
  originalData : TranslationData
  fileName : String
  isDownloadModalOpen : Bool
  downloadFileName : String
deriving DecidableEq, Repr

/-- `handleDownloadClick`: prefill the dialog with the loaded file name
with its first `.json` removed, falling back to `translations` when that is
empty, and open the dialog. -/
def handleDownloadClick (s : EditorState) : EditorState :=
  { s with
    downloadFileName := jsOrString (jsReplaceFirst s.fileName ".json") "translations",
    isDownloadModalOpen := true }

/-- `downloadJSON`: the only state setter it calls closes the dialog; the
emitted artifact is the output object together with the final file name. -/
def downloadJSON (s : EditorState) : EditorState × (TranslationData × String) :=
  ({ s with isDownloadModalOpen := false },
   (translationsObject s.originalData s.translationEntries, finalFileName s.downloadFileName))

/-- One user-visible data-model operation, exactly as the handlers perform
it.  A load step carries the well-formed snapshot it installs; its keys are
unique because they are the property names of a parsed JSON object. -/
inductive Step :
    List TranslationEntry × TranslationData → List TranslationEntry × TranslationData → Prop where
  | importStep (s : List TranslationEntry × TranslationData) (o : TranslationData)
      (h : (o.map Prod.fst).Nodup) : Step s (importEntries o, o)
  | setKeyStep (s : List TranslationEntry × TranslationData) (id k : String) :
      Step s (handlePropertyChange s.1 id k, s.2)
  | setValueStep (s : List TranslationEntry × TranslationData) (id v : String) :
      Step s (handleTranslationChange s.1 id v, s.2)
  | clearValueStep (s : List TranslationEntry × TranslationData) (id : String) :
      Step s (handleClearTranslation s.1 id, s.2)
  | clearAllStep (s : List TranslationEntry × TranslationData) :
      Step s (clearAllValues s.1, s.2)
  | addRowStep (s : List TranslationEntry × TranslationData) (tok : String) :
      Step s (addNewTranslation s.1 tok, s.2)

/-- States reachable from the initial empty document by the operations as
coded, with no assumption on the timestamp tokens of added rows. -/
inductive Reachable : List TranslationEntry × TranslationData → Prop where
  | init : Reachable ([], [])
  | step {s t : List TranslationEntry × TranslationData} :
      Reachable s → Step s t → Reachable t

/-- Like `Step`, but every added row's token is required to be distinct
from the ids already in the list. -/
inductive FreshStep :
    List TranslationEntry × TranslationData → List TranslationEntry × TranslationData → Prop where
  | importStep (s : List TranslationEntry × TranslationData) (o : TranslationData)
      (h : (o.map Prod.fst).Nodup) : FreshStep s (importEntries o, o)
  | setKeyStep (s : List TranslationEntry × TranslationData) (id k : String) :
      FreshStep s (handlePropertyChange s.1 id k, s.2)
  | setValueStep (s : List TranslationEntry × TranslationData) (id v : String) :
      FreshStep s (handleTranslationChange s.1 id v, s.2)
  | clearValueStep (s : List TranslationEntry × TranslationData) (id : String) :
      FreshStep s (handleClearTranslation s.1 id, s.2)
  | clearAllStep (s : List TranslationEntry × TranslationData) :
      FreshStep s (clearAllValues s.1, s.2)
  | addRowStep (s : List TranslationEntry × TranslationData) (tok : String)
      (h : tok ∉ s.1.map TranslationEntry.id) :
      FreshStep s (addNewTranslation s.1 tok, s.2)

/-- States reachable when every added row receives a fresh token. -/
inductive FreshReachable : List TranslationEntry × TranslationData → Prop where
  | init : FreshReachable ([], [])
  | step {s t : List TranslationEntry × TranslationData} :
      FreshReachable s → FreshStep s t → FreshReachable t

/-- A valid snapshot serialized back to a JSON value of the expected
shape. -/
def encodeData (o : TranslationData) : Json :=
  Json.obj (o.map (fun p => (p.1, Json.obj [("defaultMessage", Json.str p.2)])))

theorem getDM_of_validField (p : String × Json) (h : validField p = true) :
    getDefaultMessage p.2 = some (jsonDM p.2) := by
  obtain ⟨k, v⟩ := p
  cases v <;> simp_all [validField, getDefaultMessage, jsonDM]

theorem toEntries_valid (fs : List (String × Json)) (h : fs.all validField = true) :
    toEntries fs = some (fs.map (fun p => ⟨p.1, p.1, jsonDM p.2⟩)) := by
  induction fs with
  | nil => rfl
  | cons p rest ih =>
    rw [List.all_cons, Bool.and_eq_true] at h
    obtain ⟨k, v⟩ := p
    simp [toEntries, getDM_of_validField ⟨k, v⟩ h.1, ih h.2]

/-- C1 (amended): when the uploaded text is not parseable JSON, the entry
list and the original snapshot are left unchanged, the failure is surfaced
by the alert and nothing crashes; the displayed file name, however, has
already been replaced by the uploaded file's name.  Content of the wrong
shape is not detected by the handler in general. -/
theorem c1_invalid_json_preserves_state (s : JsState) (name : String) :
    handleFileUpload s name none = ({ s with fileName := name }, true) := rfl

/-- C1 counterexample: the content `{"a": 5}` parses but is not of the
key-to-defaultMessage shape, yet the import neither fails (no alert) nor
leaves the state unchanged: the entry list, the snapshot and the file name
of the prior (empty) document are all replaced. -/
theorem c1_counterexample :
    validContent (some (Json.obj [("a", Json.num 5)])) = false ∧
    (handleFileUpload ⟨[], Json.obj [], ""⟩ "f.json" (some (Json.obj [("a", Json.num 5)]))).2
      = false ∧
    (handleFileUpload ⟨[], Json.obj [], ""⟩ "f.json"
        (some (Json.obj [("a", Json.num 5)]))).1.translationEntries ≠ [] ∧
    (handleFileUpload ⟨[], Json.obj [], ""⟩ "f.json"
        (some (Json.obj [("a", Json.num 5)]))).1.fileName ≠ "" := by
  refine ⟨rfl, rfl, ?_, ?_⟩ <;> simp [handleFileUpload, objectEntries, toEntries,
    getDefaultMessage]

/-- C2: importing content that is valid JSON of the expected shape replaces
the snapshot with the parsed object and produces one entry per property in
enumeration order, with id and key equal to the property name and value
equal to that property's `defaultMessage`. -/
theorem c2_import_valid (s : JsState) (name : String) (fs : List (String × Json))
    (h : isValidShape (Json.obj fs) = true) :
    handleFileUpload s name (some (Json.obj fs)) =
      ({ translationEntries := fs.map (fun p => ⟨p.1, p.1, jsonDM p.2⟩),
         originalData := Json.obj fs, fileName := name }, false) := by
  have h' : fs.all validField = true := h
  simp [handleFileUpload, objectEntries, toEntries_valid fs h']

/-- C2 witness at the spec's concrete scenario. -/
theorem c2_import_valid_witness :
    isValidShape (Json.obj [("greeting", Json.obj [("defaultMessage", Json.str "Hello")])])
      = true ∧
    handleFileUpload ⟨[], Json.obj [], ""⟩ "t.json"
        (some (Json.obj [("greeting", Json.obj [("defaultMessage", Json.str "Hello")])])) =
      ({ translationEntries := [⟨"greeting", "greeting", some (Json.str "Hello")⟩],
         originalData := Json.obj [("greeting", Json.obj [("defaultMessage", Json.str "Hello")])],
         fileName := "t.json" }, false) :=
  ⟨rfl, c2_import_valid ⟨[], Json.obj [], ""⟩ "t.json" _ rfl⟩

/-- Bridge between the two layers: uploading the serialization of a valid
snapshot `o` installs exactly the entries of the string-level
`importEntries o`, with every value a JSON string. -/
theorem upload_encode (s : JsState) (name : String) (o : TranslationData) :
    handleFileUpload s name (some (encodeData o)) =
      ({ translationEntries :=
           (importEntries o).map (fun e => ⟨e.id, e.key, some (Json.str e.defaultMessage)⟩),
         originalData := encodeData o, fileName := name }, false) := by
  have hall : (o.map (fun p => (p.1, Json.obj [("defaultMessage", Json.str p.2)]))).all
      validField = true := by
    rw [List.all_eq_true]
    rintro q hq
    obtain ⟨p, _, rfl⟩ := List.mem_map.1 hq
    rfl
  simp [handleFileUpload, encodeData, objectEntries, toEntries_valid _ hall, importEntries,
    List.map_map]
  intro a b _
  rfl

theorem lookupData_map_update (acc : TranslationData) (kp v k : String) :
    lookupData (acc.map (fun p => if p.1 == kp then (p.1, v) else p)) k =
      (acc.find? (fun p => p.1 == k)).map (fun q => if q.1 == kp then v else q.2) := by
  rw [lookupData, List.find?_map]
  have hp : ((fun p : String × String => p.1 == k) ∘ fun p => if p.1 == kp then (p.1, v) else p)
      = fun p : String × String => p.1 == k := by
    funext p
    by_cases h : p.1 == kp <;> simp [Function.comp, h]
  rw [hp, Option.map_map]
  rcases hq : acc.find? (fun p => p.1 == k) with _ | q
  · simp [hq]
  · by_cases h : q.1 = kp <;> simp [hq, Function.comp, h]

theorem jsInsert_proto (acc : TranslationData) (v : String) :
    jsInsert acc "__proto__" v = acc := by
  simp [jsInsert]

theorem lookup_jsInsert (acc : TranslationData) (kp v k : String) (hpr : kp ≠ "__proto__") :
    lookupData (jsInsert acc kp v) k = if kp = k then some v else lookupData acc k := by
  have hprb : ¬((kp == "__proto__") = true) := by simpa using hpr
  by_cases ha : acc.any (fun p => p.1 == kp) = true
  · rw [jsInsert, if_neg hprb, if_pos ha, lookupData_map_update]
    by_cases hkk : kp = k
    · subst hkk
      have hsome : (acc.find? (fun p => p.1 == kp)).isSome = true := by
        rw [List.find?_isSome]
        simpa [List.any_eq_true] using ha
      rcases hq : acc.find? (fun p => p.1 == kp) with _ | q
      · rw [hq] at hsome; cases hsome
      · have hqk' := List.find?_some hq
        simp [hq]
        intro hcon
        exact absurd (by simpa using hqk') hcon
    · rcases hq : acc.find? (fun p => p.1 == k) with _ | q
      · simp [lookupData, hq, hkk]
      · have hqk' := List.find?_some hq
        have hqk : q.1 = k := by simpa using hqk'
        simp [lookupData, hq, hkk, hqk, Ne.symm hkk]
  · rw [jsInsert, if_neg hprb, if_neg ha, lookupData, List.find?_append]
    by_cases hkk : kp = k
    · subst hkk
      have hnone : acc.find? (fun p => p.1 == kp) = none := by
        rw [List.find?_eq_none]
        intro x hx hpx
        exact ha (List.any_eq_true.2 ⟨x, hx, hpx⟩)
      simp [hnone, List.find?, Option.or, lookupData]
    · have hne : ((kp, v).1 == k) = false := by simpa using hkk
      rcases hq : acc.find? (fun p => p.1 == k) with _ | q <;>
        simp [hq, List.find?, hne, Option.or, lookupData, hkk]

theorem lookup_foldl_jsInsert (l : List TranslationEntry) (acc : TranslationData) (k : String)
    (hk : k ≠ "__proto__") :
    lookupData (l.foldl (fun a e => jsInsert a e.key e.defaultMessage) acc) k =
      Option.or ((l.reverse.find? (fun e => e.key == k)).map TranslationEntry.defaultMessage)
        (lookupData acc k) := by
  induction l generalizing acc with
  | nil => simp [Option.or]
  | cons e t ih =>
    rw [List.foldl_cons, ih, List.reverse_cons, List.find?_append]
    by_cases hep : e.key = "__proto__"
    · have hne : (e.key == k) = false := by
        rw [hep]
        simpa using fun h => hk h.symm
      rcases hf : t.reverse.find? (fun e' => e'.key == k) with _ | e'
      · rw [hep, jsInsert_proto]
        simp [hf, List.find?, hne]
      · simp [hf]
    · rw [lookup_jsInsert _ _ _ _ hep]
      rcases hf : t.reverse.find? (fun e' => e'.key == k) with _ | e'
      · by_cases hek : e.key = k
        · simp [hf, List.find?, hek]
        · have hne : (e.key == k) = false := by simpa using hek
          simp [hf, List.find?, hne, hek]
      · simp [hf]

theorem lookup_foldl_jsInsert_proto (l : List TranslationEntry) (acc : TranslationData) :
    lookupData (l.foldl (fun a e => jsInsert a e.key e.defaultMessage) acc) "__proto__" =
      lookupData acc "__proto__" := by
  induction l generalizing acc with
  | nil => rfl
  | cons e t ih =>
    rw [List.foldl_cons, ih]
    by_cases hep : e.key = "__proto__"
    · rw [hep, jsInsert_proto]
    · rw [lookup_jsInsert _ _ _ _ hep, if_neg hep]

/-- C3 (amended): the exporter keeps exactly the export set (every non-new
row — even with an empty value — plus every new row with non-blank trimmed
key and value; new-but-incomplete rows are dropped); for every key other
than `__proto__` the built object maps it to the value of the last
export-set row carrying it, in list order; but an assignment to the key
`__proto__` creates no own property, so the output object never carries
that key, whatever rows the export set holds. -/
theorem c3_export_amended (o : TranslationData) (entries : List TranslationEntry) :
    (∀ e ∈ entries, isNewTranslation o e = false → e ∈ validEntries o entries) ∧
    (∀ e ∈ entries, isNewTranslation o e = true →
      (e ∈ validEntries o entries ↔ (jsTrim e.key ≠ "" ∧ jsTrim e.defaultMessage ≠ ""))) ∧
    (∀ k, k ≠ "__proto__" → lookupData (translationsObject o entries) k =
      ((validEntries o entries).reverse.find? (fun e => e.key == k)).map
        TranslationEntry.defaultMessage) ∧
    lookupData (translationsObject o entries) "__proto__" = none := by
  refine ⟨?_, ?_, ?_, ?_⟩
  · intro e he h
    exact List.mem_filter.2 ⟨he, by simp [h]⟩
  · intro e he h
    simp [validEntries, List.mem_filter, he, h]
  · intro k hk
    rw [translationsObject, lookup_foldl_jsInsert _ _ _ hk]
    simp [lookupData, Option.or_none]
  · rw [translationsObject, lookup_foldl_jsInsert_proto]
    rfl

/-- C3 witness: a non-new row with a cleared value is kept, a complete new
row is kept and exported. -/
theorem c3_export_amended_witness :
    (⟨"a", "a", ""⟩ : TranslationEntry) ∈
      validEntries [("a", "x")] [⟨"a", "a", ""⟩, ⟨"n", "k", "v"⟩] ∧
    lookupData (translationsObject [("a", "x")] [⟨"a", "a", ""⟩, ⟨"n", "k", "v"⟩]) "k"
      = some "v" := by
  have h := c3_export_amended [("a", "x")] [⟨"a", "a", ""⟩, ⟨"n", "k", "v"⟩]
  refine ⟨h.1 ⟨"a", "a", ""⟩ (by decide) (by decide), ?_⟩
  rw [h.2.2.1 "k" (by decide)]
  decide

/-- C3 counterexample: a complete new row keyed `__proto__` belongs to the
export set, yet the built object carries no such key — the assignment hit
the prototype setter instead of inserting an own property. -/
theorem c3_counterexample :
    (⟨"n", "__proto__", "v"⟩ : TranslationEntry) ∈
      validEntries [] [⟨"n", "__proto__", "v"⟩] ∧
    ((validEntries [] [⟨"n", "__proto__", "v"⟩]).reverse.find?
        (fun e => e.key == "__proto__")).map TranslationEntry.defaultMessage = some "v" ∧
    lookupData (translationsObject [] [⟨"n", "__proto__", "v"⟩]) "__proto__" = none := by
  decide

theorem lookupData_of_mem_nodup (o : TranslationData) (h : (o.map Prod.fst).Nodup)
    {p : String × String} (hp : p ∈ o) : lookupData o p.1 = some p.2 := by
  induction o with
  | nil => cases hp
  | cons q t ih =>
    rw [List.map_cons, List.nodup_cons] at h
    rcases List.mem_cons.1 hp with rfl | hmem
    · simp [lookupData]
    · have hne : (q.1 == p.1) = false := by
        by_cases hq : q.1 = p.1
        · exact absurd (hq ▸ List.mem_map.2 ⟨p, hmem, rfl⟩) h.1
        · simpa using hq
      rw [lookupData, List.find?_cons_of_neg _ (by simp [hne]), ← lookupData]
      exact ih h.2 hmem

/-- C4 (amended): immediately after a well-formed import every entry has
`isModified` false; a `setValue` that stores a value different from the
snapshot value of that id makes `isModified` true; a `setKey` call never
changes `isModified` of any row, because the predicate reads only the
stable id and the value. -/
theorem c4_modified_amended :
    (∀ (o : TranslationData), (o.map Prod.fst).Nodup →
      ∀ e ∈ importEntries o, isModified o e = false) ∧
    (∀ (o : TranslationData) (entries : List TranslationEntry) (id v : String)
        (e : TranslationEntry), e ∈ handleTranslationChange entries id v → e.id = id →
        lookupData o id ≠ some v → isModified o e = true) ∧
    (∀ (o : TranslationData) (entries : List TranslationEntry) (id k : String),
      (handlePropertyChange entries id k).map (isModified o) = entries.map (isModified o)) := by
  refine ⟨?_, ?_, ?_⟩
  · intro o hn e he
    obtain ⟨p, hp, rfl⟩ := List.mem_map.1 he
    have hl : lookupData o p.1 = some p.2 := lookupData_of_mem_nodup o hn hp
    have hh : hasOwnProperty o p.1 = true := by
      rw [hasOwnProperty, List.any_eq_true]
      exact ⟨p, hp, by simp⟩
    simp [isModified, hl, hh]
  · intro o entries id v e he hid hlk
    obtain ⟨e₀, he₀, heq⟩ := List.mem_map.1 he
    by_cases h : e₀.id == id
    · rw [if_pos h] at heq
      subst heq
      have hid' : e₀.id = id := hid
      have hbne : (lookupData o id == some v) = false := by
        rcases hval : lookupData o id with _ | w
        · rfl
        · rw [hval] at hlk
          simpa using hlk
      simp [isModified, hid', hbne]
    · rw [if_neg h] at heq
      subst heq
      exact absurd hid (by simpa using h)
  · intro o entries id k
    rw [handlePropertyChange, List.map_map]
    apply List.map_congr_left
    intro e _
    obtain ⟨i, ky, d⟩ := e
    by_cases h : i == id <;> simp [Function.comp, h, isModified]

/-- C4 counterexample: editing the key of a loaded entry (id "a", key
changed to "b") leaves `isModified` false, although the key text changed
from the original. -/
theorem c4_counterexample :
    handlePropertyChange (importEntries [("a", "v")]) "a" "b" = [⟨"a", "b", "v"⟩] ∧
    isModified [("a", "v")] ⟨"a", "b", "v"⟩ = false ∧
    ("b" : String) ≠ "a" := by decide

/-- C4 witness: after importing one entry it is unmodified; storing a
different value makes it modified. -/
theorem c4_modified_amended_witness :
    isModified [("a", "v")] ⟨"a", "a", "v"⟩ = false ∧
    isModified [("a", "v")] ⟨"a", "a", "w"⟩ = true :=
  ⟨c4_modified_amended.1 [("a", "v")] (by decide) ⟨"a", "a", "v"⟩ (by decide),
   c4_modified_amended.2.1 [("a", "v")] [⟨"a", "a", "v"⟩] "a" "w" ⟨"a", "a", "w"⟩ (by decide)
     rfl (by decide)⟩

theorem ids_update (entries : List TranslationEntry) (f : TranslationEntry → TranslationEntry)
    (hf : ∀ e, (f e).id = e.id) :
    (entries.map f).map TranslationEntry.id = entries.map TranslationEntry.id := by
  rw [List.map_map]
  exact List.map_congr_left fun e _ => hf e

theorem ids_importEntries (o : TranslationData) :
    (importEntries o).map TranslationEntry.id = o.map Prod.fst := by
  rw [importEntries, List.map_map]
  exact List.map_congr_left fun p _ => rfl

theorem ids_handlePropertyChange (entries : List TranslationEntry) (id k : String) :
    (handlePropertyChange entries id k).map TranslationEntry.id
      = entries.map TranslationEntry.id := by
  unfold handlePropertyChange
  refine ids_update entries _ fun e => ?_
  by_cases h : e.id == id <;> simp [h]

theorem ids_handleTranslationChange (entries : List TranslationEntry) (id v : String) :
    (handleTranslationChange entries id v).map TranslationEntry.id
      = entries.map TranslationEntry.id := by
  unfold handleTranslationChange
  refine ids_update entries _ fun e => ?_
  by_cases h : e.id == id <;> simp [h]

theorem ids_handleClearTranslation (entries : List TranslationEntry) (id : String) :
    (handleClearTranslation entries id).map TranslationEntry.id
      = entries.map TranslationEntry.id := by
  unfold handleClearTranslation
  refine ids_update entries _ fun e => ?_
  by_cases h : e.id == id <;> simp [h]

theorem ids_clearAllValues (entries : List TranslationEntry) :
    (clearAllValues entries).map TranslationEntry.id
      = entries.map TranslationEntry.id := by
  unfold clearAllValues
  refine ids_update entries _ fun e => ?_
  by_cases h : e.defaultMessage != "" <;> simp [h]

/-- C5 (amended): `addNewTranslation` appends — at the end of the list — a
row with empty key, empty value and id equal to the current timestamp
token; provided every such token differs from all ids already present
(the code itself does not enforce this), ids stay unique in every
reachable state. -/
theorem c5_addrow_amended :
    (∀ (entries : List TranslationEntry) (tok : String),
      addNewTranslation entries tok = entries ++ [⟨tok, "", ""⟩]) ∧
    (∀ p : List TranslationEntry × TranslationData, FreshReachable p →
      (p.1.map TranslationEntry.id).Nodup) := by
  refine ⟨fun _ _ => rfl, ?_⟩
  intro p hp
  induction hp with
  | init => simp
  | step hr hs ih =>
    cases hs with
    | importStep o h => rwa [ids_importEntries]
    | setKeyStep id k => rw [ids_handlePropertyChange]; exact ih
    | setValueStep id v => rw [ids_handleTranslationChange]; exact ih
    | clearValueStep id => rw [ids_handleClearTranslation]; exact ih
    | clearAllStep => rw [ids_clearAllValues]; exact ih
    | addRowStep tok h =>
      rw [addNewTranslation, List.map_append, List.nodup_append]
      exact ⟨ih, by simp, by simpa [List.disjoint_right] using h⟩

/-- C5 witness: the initial state is fresh-reachable and has unique ids,
and a row append at a concrete token. -/
theorem c5_addrow_amended_witness :
    addNewTranslation [] "9" = [⟨"9", "", ""⟩] ∧
    (([] : List TranslationEntry).map TranslationEntry.id).Nodup :=
  ⟨c5_addrow_amended.1 [] "9", c5_addrow_amended.2 ([], []) FreshReachable.init⟩

/-- C5 counterexample: the generated id is just the current millisecond
timestamp, so two add-row clicks inside the same millisecond (token "5"
twice) produce a reachable state with duplicate ids. -/
theorem c5_counterexample :
    Reachable ([⟨"5", "", ""⟩, ⟨"5", "", ""⟩], ([] : TranslationData)) ∧
    ¬ (([⟨"5", "", ""⟩, ⟨"5", "", ""⟩] : List TranslationEntry).map
        TranslationEntry.id).Nodup := by
  constructor
  · have h1 : Reachable (([], []) : List TranslationEntry × TranslationData) := Reachable.init
    have h2 : Reachable ([⟨"5", "", ""⟩], ([] : TranslationData)) :=
      Reachable.step h1 (Step.addRowStep ([], []) "5")
    exact Reachable.step h2 (Step.addRowStep ([⟨"5", "", ""⟩], []) "5")
  · decide

theorem foldl_jsInsert_nodup (l : List TranslationEntry) (acc : TranslationData)
    (h : (acc.map Prod.fst ++ l.map TranslationEntry.key).Nodup)
    (hp : ∀ e ∈ l, e.key ≠ "__proto__") :
    l.foldl (fun a e => jsInsert a e.key e.defaultMessage) acc
      = acc ++ l.map (fun e => (e.key, e.defaultMessage)) := by
  induction l generalizing acc with
  | nil => simp
  | cons e t ih =>
    have hmem : e.key ∉ acc.map Prod.fst := by
      rw [List.nodup_append] at h
      intro hx
      exact h.2.2 hx (by simp)
    have hany : (acc.any fun p => p.1 == e.key) = false := by
      rw [← Bool.not_eq_true, List.any_eq_true]
      rintro ⟨p, hpm, hpk⟩
      exact hmem (List.mem_map.2 ⟨p, hpm, by simpa using hpk⟩)
    have hpr : ¬((e.key == "__proto__") = true) := by simpa using hp e (by simp)
    rw [List.foldl_cons,
      show jsInsert acc e.key e.defaultMessage = acc ++ [(e.key, e.defaultMessage)] from by
        rw [jsInsert, if_neg hpr, if_neg (by simp [hany])],
      ih]
    · simp
    · simpa using h
    · intro e' he'
      exact hp e' (by simp [he'])

theorem jsOwnOrder_no_index (fs : List (String × String))
    (h : ∀ p ∈ fs, canonicalIndex p.1 = none) : jsOwnOrder fs = fs := by
  have h1 : fs.filter (fun p => (canonicalIndex p.1).isSome) = [] := by
    rw [List.filter_eq_nil_iff]
    intro p hp
    simp [h p hp]
  have h2 : fs.filter (fun p => (canonicalIndex p.1).isNone) = fs := by
    rw [List.filter_eq_self]
    intro p hp
    simp [h p hp]
  rw [jsOwnOrder, h1, h2]
  rfl

/-- C6 (amended): for an entry list with no new-but-incomplete rows, no
duplicate keys, no key equal to `__proto__` and no array-index key,
importing the exported object — read back in JS own-key enumeration
order — reproduces the same (key, value) pairs in the same order.
Array-index keys are re-enumerated first in ascending numeric order and a
`__proto__` key is dropped, so the extra hypotheses are necessary. -/
theorem c6_roundtrip_amended (o : TranslationData) (entries : List TranslationEntry)
    (hnew : ∀ e ∈ entries, isNewTranslation o e = true →
      (jsTrim e.key ≠ "" ∧ jsTrim e.defaultMessage ≠ ""))
    (hkeys : (entries.map TranslationEntry.key).Nodup)
    (hidx : ∀ e ∈ entries, canonicalIndex e.key = none)
    (hproto : ∀ e ∈ entries, e.key ≠ "__proto__") :
    (importEntries (jsOwnOrder (translationsObject o entries))).map
        (fun e => (e.key, e.defaultMessage))
      = entries.map (fun e => (e.key, e.defaultMessage)) := by
  have hvalid : validEntries o entries = entries := by
    rw [validEntries, List.filter_eq_self]
    intro e he
    by_cases hn : isNewTranslation o e = true
    · obtain ⟨h1, h2⟩ := hnew e he hn
      simp [hn, h1, h2]
    · rw [Bool.not_eq_true] at hn
      simp [hn]
  have hfold := foldl_jsInsert_nodup entries [] (by simpa using hkeys) hproto
  have hord : jsOwnOrder (entries.map (fun e => (e.key, e.defaultMessage)))
      = entries.map (fun e => (e.key, e.defaultMessage)) := by
    refine jsOwnOrder_no_index _ ?_
    rintro p hp
    obtain ⟨e, he, rfl⟩ := List.mem_map.1 hp
    exact hidx e he
  rw [translationsObject, hvalid, hfold, List.nil_append, hord]
  simp [importEntries, List.map_map]

/-- C6 witness: a loaded-and-edited row plus a complete new row round-trip
through export and import. -/
theorem c6_roundtrip_amended_witness :
    (importEntries (jsOwnOrder
        (translationsObject [("a", "x")] [⟨"a", "a", "y"⟩, ⟨"b", "c", "d"⟩]))).map
        (fun e => (e.key, e.defaultMessage))
      = [("a", "y"), ("c", "d")] := by
  have h := c6_roundtrip_amended [("a", "x")] [⟨"a", "a", "y"⟩, ⟨"b", "c", "d"⟩]
    (by decide) (by decide) (by decide) (by decide)
  rw [h]
  decide

/-- C6 counterexample: two non-new rows keyed "b" then "0" satisfy the
claim's hypotheses (no new-incomplete rows, no duplicate keys), but the
serialized object enumerates the array-index key "0" first, so the
re-imported pairs come back in the order `0`, `b` — order not
preserved. -/
theorem c6_counterexample :
    (∀ e ∈ ([⟨"b", "b", "x"⟩, ⟨"0", "0", "y"⟩] : List TranslationEntry),
        isNewTranslation [("b", "p"), ("0", "q")] e = false) ∧
    (([⟨"b", "b", "x"⟩, ⟨"0", "0", "y"⟩] : List TranslationEntry).map
        TranslationEntry.key).Nodup ∧
    (importEntries (jsOwnOrder (translationsObject [("b", "p"), ("0", "q")]
        [⟨"b", "b", "x"⟩, ⟨"0", "0", "y"⟩]))).map (fun e => (e.key, e.defaultMessage))
      = [("0", "y"), ("b", "x")] ∧
    ([⟨"b", "b", "x"⟩, ⟨"0", "0", "y"⟩] : List TranslationEntry).map
        (fun e => (e.key, e.defaultMessage)) = [("b", "x"), ("0", "y")] ∧
    ([("0", "y"), ("b", "x")] : List (String × String)) ≠ [("b", "x"), ("0", "y")] := by
  decide

/-- C7: the clear-all operation empties every row whose value is non-empty,
leaves already-empty rows untouched, and is idempotent. -/
theorem c7_clear_all (entries : List TranslationEntry) :
    clearAllValues entries
      = entries.map (fun e => if e.defaultMessage = "" then e else ⟨e.id, e.key, ""⟩) ∧
    clearAllValues (clearAllValues entries) = clearAllValues entries := by
  constructor
  · unfold clearAllValues
    refine List.map_congr_left fun e _ => ?_
    obtain ⟨i, ky, d⟩ := e
    by_cases h : d = "" <;> simp [h]
  · simp only [clearAllValues, List.map_map]
    refine List.map_congr_left fun e _ => ?_
    obtain ⟨i, ky, d⟩ := e
    by_cases h : d = "" <;> simp [Function.comp, h]

/-- C9: exporting leaves the entry list, the snapshot, the loaded file name
and the chosen download name unchanged; its only model-state change is
closing the filename dialog. -/
theorem c9_export_frame (s : EditorState) :
    (downloadJSON s).1.translationEntries = s.translationEntries ∧
    (downloadJSON s).1.originalData = s.originalData ∧
    (downloadJSON s).1.fileName = s.fileName ∧
    (downloadJSON s).1.downloadFileName = s.downloadFileName ∧
    (downloadJSON s).1.isDownloadModalOpen = false :=
  ⟨rfl, rfl, rfl, rfl, rfl⟩

theorem map_untouched (entries : List TranslationEntry) (id : String)
    (g : TranslationEntry → TranslationEntry) (h : ∀ e ∈ entries, e.id ≠ id) :
    entries.map (fun e => if e.id == id then g e else e) = entries := by
  have h1 : ∀ e ∈ entries, (if e.id == id then g e else e) = e := by
    intro e he
    have hne : (e.id == id) = false := by simpa using h e he
    simp [hne]
  exact (List.map_congr_left h1).trans (List.map_id' entries)

/-- C10: an edit addressed to an id that no row carries is a silent no-op
for `setKey`, `setValue` and `clearValue` alike. -/
theorem c10_unknown_id (entries : List TranslationEntry) (id k v : String)
    (h : ∀ e ∈ entries, e.id ≠ id) :
    handlePropertyChange entries id k = entries ∧
    handleTranslationChange entries id v = entries ∧
    handleClearTranslation entries id = entries :=
  ⟨map_untouched entries id (fun e => { e with key := k }) h,
   map_untouched entries id (fun e => { e with defaultMessage := v }) h,
   map_untouched entries id (fun e => { e with defaultMessage := "" }) h⟩

/-- C10 witness at a concrete list and an id no row carries. -/
theorem c10_unknown_id_witness :
    handlePropertyChange [⟨"a", "b", "c"⟩] "z" "k" = [⟨"a", "b", "c"⟩] ∧
    handleTranslationChange [⟨"a", "b", "c"⟩] "z" "v" = [⟨"a", "b", "c"⟩] ∧
    handleClearTranslation [⟨"a", "b", "c"⟩] "z" = [⟨"a", "b", "c"⟩] :=
  c10_unknown_id [⟨"a", "b", "c"⟩] "z" "k" "v" (by decide)

theorem removeFirstAux_not_contains (pat l : List Char) (h : containsSub pat l = false) :
    removeFirstAux pat l = l := by
  induction l with
  | nil => rfl
  | cons c cs ih =>
    simp only [containsSub, Bool.or_eq_false_iff] at h
    rw [removeFirstAux, if_neg (by simp [h.1]), ih h.2]

/-- C8 (amended): the downloaded file is named the chosen name with one
trailing `.json` (if present) removed and `.json` appended — so a chosen
name already ending in `.json` is kept verbatim; and the dialog's proposed
name is the loaded file name with its first occurrence of `.json` removed,
falling back to `translations` whenever that result is empty (in
particular when no file name is loaded). -/
theorem c8_filename_amended (n m f : String) (s : EditorState)
    (hn : jsonExt.isSuffixOf n.data = true)
    (hm : jsonExt.isSuffixOf m.data = false)
    (hf : containsSub ".json".data f.data = false) :
    finalFileName n = n ∧
    finalFileName m = m ++ ".json" ∧
    jsReplaceFirst f ".json" = f ∧
    (handleDownloadClick s).downloadFileName =
      (if jsReplaceFirst s.fileName ".json" = "" then "translations"
       else jsReplaceFirst s.fileName ".json") ∧
    (handleDownloadClick s).isDownloadModalOpen = true := by
  refine ⟨?_, ?_, ?_, ?_, rfl⟩
  · obtain ⟨t, ht⟩ := List.isSuffixOf_iff_suffix.mp hn
    have h5 : jsonExt.length = 5 := rfl
    have hlen : n.data.length - 5 = t.length := by
      rw [← ht, List.length_append, h5, Nat.add_sub_cancel]
    have hstrip : stripTrailingJson n = String.mk t := by
      unfold stripTrailingJson
      rw [if_pos hn]
      congr 1
      rw [hlen, ← ht, List.take_left]
    unfold finalFileName
    rw [hstrip]
    apply String.ext
    rw [String.data_append, ← ht]
    rfl
  · unfold finalFileName stripTrailingJson
    rw [if_neg (by simp [hm])]
  · unfold jsReplaceFirst
    rw [removeFirstAux_not_contains (".json".data) f.data hf]
  · by_cases h : jsReplaceFirst s.fileName ".json" = "" <;>
      simp [handleDownloadClick, jsOrString, h]

/-- C8 witness at concrete names with and without the extension. -/
theorem c8_filename_amended_witness :
    finalFileName "a.json" = "a.json" ∧
    finalFileName "b" = "b" ++ ".json" ∧
    jsReplaceFirst "c" ".json" = "c" := by
  have h := c8_filename_amended "a.json" "b" "c"
    { translationEntries := [], originalData := [], fileName := "",
      isDownloadModalOpen := false, downloadFileName := "" }
    (by decide) (by decide) (by decide)
  exact ⟨h.1, h.2.1, h.2.2.1⟩

/-- C8 counterexample: with loaded file name `".json"` the dialog proposes
"translations", not the stripped name (which is empty), refuting the
claimed equality between the default and the stripped file name. -/
theorem c8_counterexample :
    (handleDownloadClick
        { translationEntries := [], originalData := [], fileName := ".json",
          isDownloadModalOpen := false, downloadFileName := "" }).downloadFileName
      = "translations" ∧
    jsReplaceFirst ".json" ".json" = "" ∧
    "translations" ≠ ("" : String) := by decide

end TranslationEditor
